import Mathlib

/-!
Verification of the data pipeline of a coffee-shop sales dashboard
(`app.py`).  The program loads a table of point-of-sale line items,
derives `total_price`, filters by an inclusive date range and a store
set, and computes grouped aggregate views (KPI summary, daily series,
product metrics with a top-10 selection, store metrics, hourly
averages, day-of-week averages).

Embedding conventions:
* a dataframe is a `List Row`;
* timestamps (`transaction_date`, pandas `datetime64`) are integer
  seconds; `dt.normalize()` is flooring to a multiple of 86400, and a
  calendar day is the floored quotient by 86400 (the epoch day number);
* money (`unit_price`, `total_price`) is `ℚ`;
* pandas `groupby(key)` (default `sort=True`) is: the deduplicated
  keys sorted ascending, each paired with the sub-list of rows having
  that key; `nunique` is the number of distinct values; `mean` is
  sum divided by row count;
* `DataFrame.nlargest(n, col)` (default `keep = "first"`) is a stable
  descending sort by `col` followed by `take n`;
* `reindex` over an association list is `List.lookup`, with `none`
  standing for the NaN that pandas puts at a missing index.
-/

namespace CoffeeDashboard

/-- One line item of the sales table, after `load_data` has parsed
`transaction_date` and added the derived `total_price` column. -/
structure Row where
  transaction_id : Nat
  transaction_date : Int
  transaction_time : String
  transaction_qty : Nat
  unit_price : ℚ
  store_location : String
  product_category : String
  product_type : String
  total_price : ℚ
deriving DecidableEq

/-- The load step `df['total_price'] = df['transaction_qty'] * df['unit_price']`
(app.py line 11): build a row with the derived column filled in. -/
def mkRow (txn : Nat) (date : Int) (time : String) (qty : Nat) (price : ℚ)
    (store cat ptype : String) : Row :=
  { transaction_id := txn
    transaction_date := date
    transaction_time := time
    transaction_qty := qty
    unit_price := price
    store_location := store
    product_category := cat
    product_type := ptype
    total_price := qty * price }

/-- `filtered_df['total_price'].sum()`. -/
def sumPrices (t : List Row) : ℚ := (t.map Row.total_price).sum

/-- `filtered_df['transaction_qty'].sum()`. -/
def sumQty (t : List Row) : Nat := (t.map Row.transaction_qty).sum

/-- `filtered_df['transaction_id'].nunique()`: the number of distinct
transaction ids. -/
def nuniqueTxn (t : List Row) : Nat := (t.map Row.transaction_id).dedup.length

/-- `filtered_df['total_price'].mean()`: sum over row count. -/
def meanPrice (t : List Row) : ℚ := sumPrices t / t.length

/-- The four top-level metrics of the dashboard. -/
structure KPI where
  total_revenue : ℚ
  total_transactions : Nat
  avg_transaction_value : ℚ
  total_items : Nat
deriving DecidableEq

/-- The KPI block of `main` (app.py lines 81-93).  It is only ever
reached on a non-empty filtered table (the empty case returns at line
76-78), which the hypothesis records. -/
def kpiSummary (t : List Row) (_h : t ≠ []) : KPI :=
  { total_revenue := sumPrices t
    total_transactions := nuniqueTxn t
    avg_transaction_value := meanPrice t
    total_items := sumQty t }

/-- Day number 19358 is 2023-01-01. -/
def exDay : Int := 19358

/-- The two-row example table of the spec. -/
def exampleTable : List Row :=
  [ mkRow 1 (86400 * exDay) "0930" 2 3 "A" "Coffee" "Latte",
    mkRow 2 (86400 * exDay) "1030" 1 5 "B" "Tea" "Chai" ]

/-- **C1**  On a non-empty filtered table the KPI summary is: revenue =
sum of per-row `total_price`, transactions = number of distinct
`transaction_id`s, average transaction value = arithmetic mean of the
per-row `total_price` (sum over row count, not revenue over transaction
count), items = sum of `transaction_qty`; on the spec's two-row example
it evaluates to (11, 2, 5.5, 3). -/
theorem kpi_summary_spec :
    (∀ (t : List Row) (h : t ≠ []),
      kpiSummary t h =
        { total_revenue := (t.map Row.total_price).sum
          total_transactions := (t.map Row.transaction_id).dedup.length
          avg_transaction_value := (t.map Row.total_price).sum / t.length
          total_items := (t.map Row.transaction_qty).sum }) ∧
    kpiSummary exampleTable (by simp [exampleTable]) =
      { total_revenue := 11
        total_transactions := 2
        avg_transaction_value := 11 / 2
        total_items := 3 } := by
  constructor
  · intro t h
    rfl
  · simp [kpiSummary, exampleTable, mkRow, sumPrices, nuniqueTxn, meanPrice, sumQty]
    norm_num

/-- Witness for `kpi_summary_spec`: its universal part applied to the
concrete example table. -/
theorem kpi_summary_spec_witness :
    kpiSummary exampleTable (by simp [exampleTable]) =
      { total_revenue := (exampleTable.map Row.total_price).sum
        total_transactions := (exampleTable.map Row.transaction_id).dedup.length
        avg_transaction_value :=
          (exampleTable.map Row.total_price).sum / exampleTable.length
        total_items := (exampleTable.map Row.transaction_qty).sum } :=
  kpi_summary_spec.1 exampleTable (by simp [exampleTable])

/-! ### Grouping (pandas `groupby`, default `sort=True`) -/

/-- The group keys of `t.groupby(f)`: the distinct values of `f` over
`t`, sorted ascending by `r` (pandas sorts group keys by default). -/
def groupKeys {κ : Type} [DecidableEq κ] (r : κ → κ → Prop) [DecidableRel r]
    (f : Row → κ) (t : List Row) : List κ :=
  List.insertionSort r (t.map f).dedup

/-- The rows of `t` falling in the group of key `k`. -/
def groupRows {κ : Type} [DecidableEq κ] (f : Row → κ) (k : κ) (t : List Row) :
    List Row :=
  t.filter (fun row => f row = k)

/-- One row of `create_daily_metrics` (app.py lines 15-21): per
`transaction_date`, summed revenue, distinct transaction count, summed
quantity. -/
structure DailyRow where
  transaction_date : Int
  total_price : ℚ
  transaction_id : Nat
  transaction_qty : Nat
deriving DecidableEq

/-- `create_daily_metrics` (app.py lines 15-21): group by
`transaction_date` and aggregate sum / nunique / sum. -/
def create_daily_metrics (t : List Row) : List DailyRow :=
  (groupKeys (· ≤ ·) Row.transaction_date t).map fun d =>
    { transaction_date := d
      total_price := sumPrices (groupRows Row.transaction_date d t)
      transaction_id := nuniqueTxn (groupRows Row.transaction_date d t)
      transaction_qty := sumQty (groupRows Row.transaction_date d t) }

/-- The `(product_category, product_type)` group key. -/
def prodKey (r : Row) : String × String := (r.product_category, r.product_type)

/-- Lexicographic order on `(product_category, product_type)` pairs,
the order pandas sorts a two-column group key in. -/
def prodLe (a b : String × String) : Prop :=
  a.1 < b.1 ∨ (a.1 = b.1 ∧ a.2 ≤ b.2)

instance : DecidableRel prodLe := fun a b =>
  decidable_of_iff (a.1 < b.1 ∨ (a.1 = b.1 ∧ a.2 ≤ b.2)) Iff.rfl

instance : IsTotal (String × String) prodLe := by
  constructor
  intro a b
  rcases lt_trichotomy a.1 b.1 with h | h | h
  · exact Or.inl (Or.inl h)
  · rcases le_total a.2 b.2 with h2 | h2
    · exact Or.inl (Or.inr ⟨h, h2⟩)
    · exact Or.inr (Or.inr ⟨h.symm, h2⟩)
  · exact Or.inr (Or.inl h)

instance : IsTrans (String × String) prodLe := by
  constructor
  intro a b c hab hbc
  rcases hab with h1 | ⟨h1, h1'⟩
  · rcases hbc with h2 | ⟨h2, _⟩
    · exact Or.inl (h1.trans h2)
    · exact Or.inl (h2 ▸ h1)
  · rcases hbc with h2 | ⟨h2, h2'⟩
    · exact Or.inl (h1 ▸ h2)
    · exact Or.inr ⟨h1.trans h2, h1'.trans h2'⟩

/-- One row of `create_product_metrics` (app.py lines 23-28): per
`(product_category, product_type)`, summed revenue, row count
(`'transaction_id': 'count'`), summed quantity. -/
structure ProductRow where
  product_category : String
  product_type : String
  total_price : ℚ
  transaction_id : Nat
  transaction_qty : Nat
deriving DecidableEq

/-- `create_product_metrics` (app.py lines 23-28). -/
def create_product_metrics (t : List Row) : List ProductRow :=
  (groupKeys prodLe prodKey t).map fun k =>
    { product_category := k.1
      product_type := k.2
      total_price := sumPrices (groupRows prodKey k t)
      transaction_id := (groupRows prodKey k t).length
      transaction_qty := sumQty (groupRows prodKey k t) }

/-- One row of the store grouping in `main` (app.py lines 163-167):
per `store_location`, summed revenue, distinct transaction count,
summed quantity. -/
structure StoreRow where
  store_location : String
  total_price : ℚ
  transaction_id : Nat
  transaction_qty : Nat
deriving DecidableEq

/-- The `store_metrics` grouping of `main` (app.py lines 163-167). -/
def store_metrics (t : List Row) : List StoreRow :=
  (groupKeys (· ≤ ·) Row.store_location t).map fun s =>
    { store_location := s
      total_price := sumPrices (groupRows Row.store_location s t)
      transaction_id := nuniqueTxn (groupRows Row.store_location s t)
      transaction_qty := sumQty (groupRows Row.store_location s t) }

/-! ### Grouping preserves the revenue sum -/

lemma sum_map_ite_zero {κ : Type} [DecidableEq κ] (keys : List κ) (k : κ)
    (x : ℚ) (hk : k ∉ keys) :
    (keys.map fun j => if k = j then x else 0).sum = 0 := by
  induction keys with
  | nil => simp
  | cons j keys ih =>
    simp only [List.mem_cons, not_or] at hk
    simp [hk.1, ih hk.2]

lemma sum_map_ite {κ : Type} [DecidableEq κ] (keys : List κ) (k : κ) (x : ℚ)
    (hnd : keys.Nodup) (hk : k ∈ keys) :
    (keys.map fun j => if k = j then x else 0).sum = x := by
  induction keys with
  | nil => simp at hk
  | cons j keys ih =>
    rcases List.mem_cons.mp hk with h | h
    · subst h
      simp [sum_map_ite_zero keys k x (List.nodup_cons.mp hnd).1]
    · have hne : k ≠ j := by
        rintro rfl
        exact (List.nodup_cons.mp hnd).1 h
      simp [hne, ih (List.nodup_cons.mp hnd).2 h]

lemma sum_map_add_split {κ : Type} (l : List κ) (f g : κ → ℚ) :
    (l.map fun k => f k + g k).sum = (l.map f).sum + (l.map g).sum := by
  induction l with
  | nil => simp
  | cons a l ih =>
    simp only [List.map_cons, List.sum_cons, ih]
    exact add_add_add_comm (f a) (g a) (l.map f).sum (l.map g).sum

lemma groupRows_cons {κ : Type} [DecidableEq κ] (f : Row → κ) (k : κ)
    (r : Row) (t : List Row) :
    groupRows f k (r :: t) =
      if f r = k then r :: groupRows f k t else groupRows f k t := by
  by_cases h : f r = k <;> simp [groupRows, List.filter_cons, h]

lemma sumPrices_cons (r : Row) (t : List Row) :
    sumPrices (r :: t) = r.total_price + sumPrices t := by
  simp [sumPrices]

/-- Summing the per-group revenue over any duplicate-free list of keys
covering the table recovers the total revenue. -/
lemma sum_groups_eq_sumPrices {κ : Type} [DecidableEq κ] (f : Row → κ)
    (keys : List κ) (hnd : keys.Nodup) :
    ∀ t : List Row, (∀ r ∈ t, f r ∈ keys) →
      (keys.map fun k => sumPrices (groupRows f k t)).sum = sumPrices t := by
  intro t
  induction t with
  | nil =>
    intro _
    simp [groupRows, sumPrices]
  | cons r t ih =>
    intro hmem
    have h1 : (keys.map fun k => sumPrices (groupRows f k (r :: t))) =
        keys.map fun k =>
          (if f r = k then r.total_price else 0) + sumPrices (groupRows f k t) := by
      apply List.map_congr_left
      intro k _
      rw [groupRows_cons]
      by_cases h : f r = k <;> simp [h, sumPrices_cons]
    rw [h1, sum_map_add_split, sum_map_ite keys (f r) r.total_price hnd
        (hmem r (List.mem_cons_self r t)),
      ih (fun r' hr' => hmem r' (List.mem_cons_of_mem r hr')), sumPrices_cons]

lemma groupKeys_nodup {κ : Type} [DecidableEq κ] (r : κ → κ → Prop)
    [DecidableRel r] (f : Row → κ) (t : List Row) :
    (groupKeys r f t).Nodup :=
  ((List.perm_insertionSort r (t.map f).dedup).symm).nodup
    (List.nodup_dedup (t.map f))

lemma mem_groupKeys {κ : Type} [DecidableEq κ] {r : κ → κ → Prop}
    [DecidableRel r] {f : Row → κ} {t : List Row} {k : κ} :
    k ∈ groupKeys r f t ↔ ∃ row ∈ t, f row = k := by
  unfold groupKeys
  rw [List.mem_insertionSort, List.mem_dedup, List.mem_map]

lemma groupKeys_covers {κ : Type} [DecidableEq κ] (r : κ → κ → Prop)
    [DecidableRel r] (f : Row → κ) (t : List Row) :
    ∀ row ∈ t, f row ∈ groupKeys r f t := by
  intro row hrow
  exact mem_groupKeys.mpr ⟨row, hrow, rfl⟩

/-- **C2**  For every table, the grand total of `total_price` equals
the sum of the per-group revenue in each of the three groupings: by
day (`create_daily_metrics`), by product (`create_product_metrics`),
and by store (`store_metrics`).  No grouping loses or double-counts
revenue. -/
theorem grouping_preserves_revenue (t : List Row) :
    ((create_daily_metrics t).map DailyRow.total_price).sum = sumPrices t ∧
    ((create_product_metrics t).map ProductRow.total_price).sum = sumPrices t ∧
    ((store_metrics t).map StoreRow.total_price).sum = sumPrices t := by
  refine ⟨?_, ?_, ?_⟩
  · rw [create_daily_metrics, List.map_map]
    exact sum_groups_eq_sumPrices Row.transaction_date _
      (groupKeys_nodup _ _ t) t (groupKeys_covers _ _ t)
  · rw [create_product_metrics, List.map_map]
    exact sum_groups_eq_sumPrices prodKey _
      (groupKeys_nodup _ _ t) t (groupKeys_covers _ _ t)
  · rw [store_metrics, List.map_map]
    exact sum_groups_eq_sumPrices Row.store_location _
      (groupKeys_nodup _ _ t) t (groupKeys_covers _ _ t)

/-! ### The date-range / store filter of `main` (app.py lines 44-70) -/

/-- `dt.normalize()`: floor a timestamp to midnight of its day. -/
def normalizeTs (ts : Int) : Int := 86400 * (ts / 86400)

/-- The epoch day number of a timestamp (its date, time of day
discarded). -/
def dayOf (ts : Int) : Int := ts / 86400

/-- `pd.to_datetime(date_range[0])` (app.py line 55): midnight of the
selected start day. -/
def dayStartTs (d : Int) : Int := 86400 * d

/-- `pd.to_datetime(date_range[1]) + pd.Timedelta(days=1) -
pd.Timedelta(seconds=1)` (app.py line 56): one second before the end
of the selected end day. -/
def dayEndTs (d : Int) : Int := 86400 * d + 86400 - 1

/-- The row filter of `main` (app.py lines 66-70): normalized
transaction timestamp between the normalized bound timestamps, and
`store_location.isin(selected_stores)`. -/
def apply_filter (t : List Row) (d0 d1 : Int) (stores : List String) :
    List Row :=
  t.filter fun r =>
    decide (normalizeTs (dayStartTs d0) ≤ normalizeTs r.transaction_date) &&
    decide (normalizeTs r.transaction_date ≤ normalizeTs (dayEndTs d1)) &&
    decide (r.store_location ∈ stores)

/-- **C3**  A row survives the filter exactly when its transaction
date, truncated to day granularity (time of day discarded), lies in
the inclusive range `[d0, d1]` and its store is in the selected set. -/
theorem filter_membership_spec (t : List Row) (d0 d1 : Int)
    (stores : List String) (r : Row) :
    r ∈ apply_filter t d0 d1 stores ↔
      r ∈ t ∧ d0 ≤ dayOf r.transaction_date ∧ dayOf r.transaction_date ≤ d1 ∧
        r.store_location ∈ stores := by
  unfold apply_filter
  rw [List.mem_filter]
  simp only [Bool.and_eq_true, decide_eq_true_eq]
  unfold normalizeTs dayStartTs dayEndTs dayOf
  constructor
  · rintro ⟨h1, ⟨h2, h3⟩, h4⟩
    exact ⟨h1, by omega, by omega, h4⟩
  · rintro ⟨h1, h2, h3, h4⟩
    exact ⟨h1, ⟨by omega, by omega⟩, h4⟩

/-- **C8**  With an empty store selection the filter returns the empty
table, whatever the date range. -/
theorem filter_empty_stores (t : List Row) (d0 d1 : Int) :
    apply_filter t d0 d1 [] = [] := by
  simp [apply_filter]

/-! ### The default widget selection (C10) -/

/-- `df['transaction_date'].min()` (app.py line 44), 0 on an empty
table (pandas would give NaT there; `main` returns before reaching
this point when the load produced no rows). -/
def minDate : List Row → Int
  | [] => 0
  | r :: t => (t.map Row.transaction_date).foldl min r.transaction_date

/-- `df['transaction_date'].max()` (app.py line 45). -/
def maxDate : List Row → Int
  | [] => 0
  | r :: t => (t.map Row.transaction_date).foldl max r.transaction_date

/-- `df['store_location'].unique()` (app.py lines 61-62), the default
value of the store multiselect. -/
def uniqueStores (t : List Row) : List String :=
  (t.map Row.store_location).dedup

lemma foldl_min_le_init (l : List Int) : ∀ init : Int, l.foldl min init ≤ init := by
  induction l with
  | nil => intro init; simp
  | cons a l ih =>
    intro init
    exact le_trans (ih (min init a)) (min_le_left init a)

lemma foldl_min_le_mem (l : List Int) :
    ∀ init x, x ∈ l → l.foldl min init ≤ x := by
  induction l with
  | nil => intro _ x hx; simp at hx
  | cons a l ih =>
    intro init x hx
    rcases List.mem_cons.mp hx with rfl | hx
    · exact le_trans (foldl_min_le_init l (min init x)) (min_le_right init x)
    · exact ih (min init a) x hx

lemma init_le_foldl_max (l : List Int) : ∀ init : Int, init ≤ l.foldl max init := by
  induction l with
  | nil => intro init; simp
  | cons a l ih =>
    intro init
    exact le_trans (le_max_left init a) (ih (max init a))

lemma mem_le_foldl_max (l : List Int) :
    ∀ init x, x ∈ l → x ≤ l.foldl max init := by
  induction l with
  | nil => intro _ x hx; simp at hx
  | cons a l ih =>
    intro init x hx
    rcases List.mem_cons.mp hx with rfl | hx
    · exact le_trans (le_max_right init x) (init_le_foldl_max l (max init x))
    · exact ih (max init a) x hx

lemma minDate_le {t : List Row} {r : Row} (hr : r ∈ t) :
    minDate t ≤ r.transaction_date := by
  cases t with
  | nil => simp at hr
  | cons a t =>
    rcases List.mem_cons.mp hr with rfl | hr
    · exact foldl_min_le_init _ _
    · exact foldl_min_le_mem _ _ _ (List.mem_map_of_mem Row.transaction_date hr)

lemma le_maxDate {t : List Row} {r : Row} (hr : r ∈ t) :
    r.transaction_date ≤ maxDate t := by
  cases t with
  | nil => simp at hr
  | cons a t =>
    rcases List.mem_cons.mp hr with rfl | hr
    · exact init_le_foldl_max _ _
    · exact mem_le_foldl_max _ _ _ (List.mem_map_of_mem Row.transaction_date hr)

/-- **C10**  The default widget selection — start = the table's
earliest transaction date, end = its latest, stores = all distinct
store locations — filters nothing: the filtered table is the loaded
table itself. -/
theorem default_filter_is_identity (t : List Row) (_h : t ≠ []) :
    apply_filter t (dayOf (minDate t)) (dayOf (maxDate t)) (uniqueStores t) = t := by
  unfold apply_filter
  rw [List.filter_eq_self]
  intro r hr
  simp only [Bool.and_eq_true, decide_eq_true_eq]
  refine ⟨⟨?_, ?_⟩, ?_⟩
  · have hmin : minDate t ≤ r.transaction_date := minDate_le hr
    unfold normalizeTs dayStartTs dayOf
    omega
  · have hmax : r.transaction_date ≤ maxDate t := le_maxDate hr
    unfold normalizeTs dayEndTs dayOf
    omega
  · exact List.mem_dedup.mpr (List.mem_map_of_mem Row.store_location hr)

/-- A concrete row dated Sunday 2023-01-01 (day 19358), with a stray
time-of-day component in its timestamp. -/
def wRowSun : Row :=
  { transaction_id := 10, transaction_date := 86400 * 19358 + 100,
    transaction_time := "0805", transaction_qty := 1, unit_price := 3,
    store_location := "Astoria", product_category := "Coffee",
    product_type := "Latte", total_price := 3 }

/-- A concrete row dated Monday 2023-01-02 (day 19359). -/
def wRowMon : Row :=
  { transaction_id := 10, transaction_date := 86400 * 19359,
    transaction_time := "0910", transaction_qty := 2, unit_price := 2,
    store_location := "SoHo", product_category := "Coffee",
    product_type := "Espresso", total_price := 4 }

/-- A concrete row dated Tuesday 2023-01-03 (day 19360). -/
def wRowTue : Row :=
  { transaction_id := 11, transaction_date := 86400 * 19360,
    transaction_time := "1130", transaction_qty := 1, unit_price := 4,
    store_location := "Astoria", product_category := "Tea",
    product_type := "Chai", total_price := 4 }

/-- A concrete three-row table used to witness hypotheses. -/
def witnessTable : List Row := [wRowSun, wRowMon, wRowTue]

/-- Witness for `default_filter_is_identity` at a concrete table. -/
theorem default_filter_is_identity_witness :
    apply_filter witnessTable (dayOf (minDate witnessTable))
      (dayOf (maxDate witnessTable)) (uniqueStores witnessTable) = witnessTable :=
  default_filter_is_identity witnessTable (by simp [witnessTable])

/-! ### The daily series (C7) -/

lemma groupKeys_pairwise {κ : Type} [DecidableEq κ] (r : κ → κ → Prop)
    [DecidableRel r] [IsTotal κ r] [IsTrans κ r] (f : Row → κ) (t : List Row) :
    (groupKeys r f t).Pairwise fun a b => r a b ∧ a ≠ b :=
  (List.sorted_insertionSort r _).and (groupKeys_nodup r f t)

/-- **C7**  `create_daily_metrics` groups rows by `transaction_date`
and emits, per date: the summed `total_price`, the number of distinct
`transaction_id`s, and the summed `transaction_qty`; its rows are
strictly ascending by date, there is a row for exactly the dates
occurring in the input, and each date's aggregates are computed over
precisely the rows carrying that date. -/
theorem daily_series_spec (t : List Row) :
    (create_daily_metrics t).Pairwise
      (fun a b => a.transaction_date < b.transaction_date) ∧
    (∀ g ∈ create_daily_metrics t,
      (∃ r ∈ t, r.transaction_date = g.transaction_date) ∧
      g.total_price = sumPrices (groupRows Row.transaction_date g.transaction_date t) ∧
      g.transaction_id = nuniqueTxn (groupRows Row.transaction_date g.transaction_date t) ∧
      g.transaction_qty = sumQty (groupRows Row.transaction_date g.transaction_date t)) ∧
    (∀ r ∈ t, ∃ g ∈ create_daily_metrics t,
      g.transaction_date = r.transaction_date) := by
  refine ⟨?_, ?_, ?_⟩
  · unfold create_daily_metrics
    rw [List.pairwise_map]
    exact (groupKeys_pairwise (· ≤ ·) Row.transaction_date t).imp
      (fun hab => lt_of_le_of_ne hab.1 hab.2)
  · intro g hg
    unfold create_daily_metrics at hg
    rcases List.mem_map.mp hg with ⟨k, hk, rfl⟩
    rcases mem_groupKeys.mp hk with ⟨row, hrow, hrowk⟩
    exact ⟨⟨row, hrow, hrowk⟩, rfl, rfl, rfl⟩
  · intro r hr
    exact ⟨_, List.mem_map.mpr
      ⟨r.transaction_date, groupKeys_covers _ _ t r hr, rfl⟩, rfl⟩

/-- Witness for `daily_series_spec`: the Monday row of the concrete
table yields a daily-series row with its date. -/
theorem daily_series_spec_witness :
    ∃ g ∈ create_daily_metrics witnessTable,
      g.transaction_date = wRowMon.transaction_date :=
  (daily_series_spec witnessTable).2.2 wRowMon (by decide)

/-! ### Hourly averages (C6) -/

/-- `filtered_df['transaction_time'].str[:2]` (app.py line 194): the
leading two characters of the raw time string; a shorter string
contributes itself unchanged. -/
def hourKey (r : Row) : String := r.transaction_time.take 2

/-- Comparison of hourly rows by their string hour key, the order of
`sort_values('transaction_time')` (app.py line 196). -/
def byFstLe (a b : String × ℚ) : Prop := a.1 ≤ b.1

instance : DecidableRel byFstLe := fun a b =>
  inferInstanceAs (Decidable (a.1 ≤ b.1))

instance : IsTotal (String × ℚ) byFstLe :=
  ⟨fun a b => le_total a.1 b.1⟩

instance : IsTrans (String × ℚ) byFstLe :=
  ⟨fun _ _ _ h1 h2 => le_trans h1 h2⟩

/-- The hourly view of `main` (app.py lines 193-196): group by the
two-character hour key, take the mean `total_price` per key, sort
ascending by the key string. -/
def hourly_data (t : List Row) : List (String × ℚ) :=
  List.insertionSort byFstLe
    ((groupKeys (· ≤ ·) hourKey t).map fun k =>
      (k, meanPrice (groupRows hourKey k t)))

lemma pairwise_fst_ne {β : Type} (keys : List String) (g : String → β)
    (hnd : keys.Nodup) :
    (keys.map fun k => (k, g k)).Pairwise fun a b => a.1 ≠ b.1 := by
  rw [List.pairwise_map]
  exact hnd

/-- **C6**  The hourly view: its rows are strictly ascending by the
hour key compared as a string; every row carries the mean
`total_price` of exactly the input rows sharing its key, and its key
occurs in the input; every input row is represented; and the key is
the literal two-character string truncation of `transaction_time` —
in particular a one-character time string contributes itself. -/
theorem hourly_averages_spec (t : List Row) :
    (hourly_data t).Pairwise (fun a b => a.1 < b.1) ∧
    (∀ p ∈ hourly_data t,
      (∃ r ∈ t, hourKey r = p.1) ∧
      p.2 = meanPrice (groupRows hourKey p.1 t)) ∧
    (∀ r ∈ t,
      (hourKey r, meanPrice (groupRows hourKey (hourKey r) t)) ∈ hourly_data t) ∧
    (∀ r : Row, hourKey r = r.transaction_time.take 2) ∧
    hourKey { wRowSun with transaction_time := "9" } = "9" := by
  refine ⟨?_, ?_, ?_, fun _ => rfl, by decide⟩
  · have hsorted : (hourly_data t).Pairwise byFstLe :=
      List.sorted_insertionSort byFstLe _
    have hperm := List.perm_insertionSort byFstLe
      ((groupKeys (· ≤ ·) hourKey t).map fun k =>
        (k, meanPrice (groupRows hourKey k t)))
    have hne : (hourly_data t).Pairwise fun a b => a.1 ≠ b.1 := by
      refine (hperm.pairwise_iff ?_).mpr
        (pairwise_fst_ne _ _ (groupKeys_nodup _ _ t))
      intro a b h
      exact fun hc => h hc.symm
    exact (hsorted.and hne).imp fun hab => lt_of_le_of_ne hab.1 hab.2
  · intro p hp
    unfold hourly_data at hp
    rw [List.mem_insertionSort] at hp
    rcases List.mem_map.mp hp with ⟨k, hk, rfl⟩
    exact ⟨mem_groupKeys.mp hk, rfl⟩
  · intro r hr
    unfold hourly_data
    rw [List.mem_insertionSort]
    exact List.mem_map.mpr ⟨hourKey r, groupKeys_covers _ _ t r hr, rfl⟩

/-- Witness for `hourly_averages_spec`: the Sunday row of the concrete
table is represented in its hourly view. -/
theorem hourly_averages_spec_witness :
    (hourKey wRowSun,
      meanPrice (groupRows hourKey (hourKey wRowSun) witnessTable)) ∈
      hourly_data witnessTable :=
  (hourly_averages_spec witnessTable).2.2.1 wRowSun (by decide)

/-! ### Day-of-week averages (C5) -/

/-- The fixed weekday order of app.py line 216. -/
def day_order : List String :=
  ["Monday", "Tuesday", "Wednesday", "Thursday", "Friday", "Saturday", "Sunday"]

/-- `dt.day_name()`: the weekday name of a timestamp.  Day 0
(1970-01-01) was a Thursday, index 3 of `day_order`. -/
def dayName (ts : Int) : String := day_order.getD ((dayOf ts + 3) % 7).toNat ""

/-- The weekday grouping of `main` (app.py lines 217-219):
`groupby('day_of_week')['total_price'].mean()`, an association list
from the weekday names present in the table to the mean revenue. -/
def day_of_week_means (t : List Row) : List (String × ℚ) :=
  (groupKeys (· ≤ ·) (fun r => dayName r.transaction_date) t).map fun k =>
    (k, meanPrice (groupRows (fun r => dayName r.transaction_date) k t))

/-- `.reindex(day_order)` (app.py line 219): one entry per weekday in
the fixed order, `none` (pandas NaN) where the weekday has no group. -/
def daily_patterns (t : List Row) : List (String × Option ℚ) :=
  day_order.map fun d => (d, (day_of_week_means t).lookup d)

lemma lookup_map_pair {β : Type} (g : String → β) (d : String) :
    ∀ keys : List String,
      List.lookup d (keys.map fun k => (k, g k)) =
        if d ∈ keys then some (g d) else none := by
  intro keys
  induction keys with
  | nil => simp
  | cons k keys ih =>
    by_cases h : d = k
    · subst h
      simp [List.lookup]
    · simp [List.lookup, beq_eq_false_iff_ne.mpr h, ih, h]

/-- **C5**  The day-of-week view always has exactly 7 rows, labelled
`Monday .. Sunday` in that fixed order; a weekday with rows in the
table carries `some` of the mean `total_price` of exactly those rows,
and a weekday with no rows is still present but carries `none`
(pandas NaN), not zero. -/
theorem day_of_week_spec (t : List Row) :
    (daily_patterns t).length = 7 ∧
    (daily_patterns t).map Prod.fst = day_order ∧
    ∀ d ∈ day_order,
      ((∃ r ∈ t, dayName r.transaction_date = d) →
        (d, some (meanPrice
          (groupRows (fun r => dayName r.transaction_date) d t))) ∈
            daily_patterns t) ∧
      ((∀ r ∈ t, dayName r.transaction_date ≠ d) →
        (d, (none : Option ℚ)) ∈ daily_patterns t) := by
  refine ⟨rfl, ?_, ?_⟩
  · unfold daily_patterns
    rw [List.map_map]
    exact List.map_id day_order
  · intro d hd
    constructor
    · intro hex
      have hmem : d ∈ groupKeys (· ≤ ·) (fun r => dayName r.transaction_date) t :=
        mem_groupKeys.mpr hex
      have : (day_of_week_means t).lookup d =
          some (meanPrice (groupRows (fun r => dayName r.transaction_date) d t)) := by
        unfold day_of_week_means
        rw [lookup_map_pair, if_pos hmem]
      exact List.mem_map.mpr ⟨d, hd, by rw [this]⟩
    · intro hnone
      have hmem : d ∉ groupKeys (· ≤ ·) (fun r => dayName r.transaction_date) t := by
        intro hc
        rcases mem_groupKeys.mp hc with ⟨row, hrow, hk⟩
        exact hnone row hrow hk
      have : (day_of_week_means t).lookup d = none := by
        unfold day_of_week_means
        rw [lookup_map_pair, if_neg hmem]
      exact List.mem_map.mpr ⟨d, hd, by rw [this]⟩

/-- Witness for `day_of_week_spec`: the concrete table has no Friday
row, and its day-of-week view carries `none` for Friday. -/
theorem day_of_week_spec_witness :
    ("Friday", (none : Option ℚ)) ∈ daily_patterns witnessTable :=
  ((day_of_week_spec witnessTable).2.2 "Friday" (by decide)).2 (by decide)

/-! ### Top 10 products by revenue (C4)

`product_metrics.nlargest(10, 'total_price')` (app.py line 125).
pandas `nlargest` with the default `keep="first"` is a stable
descending sort by the column followed by taking the first `n` rows:
ties keep the relative order they have in `product_metrics` — which
`groupby` has already sorted by `(product_category, product_type)`
key, not by encounter order in the filtered table. -/

/-- Descending comparison by a column; the relation `nlargest` sorts
by.  Stability of `List.insertionSort` for this non-strict relation
matches `keep="first"`. -/
def colGe {α : Type} (col : α → ℚ) (a b : α) : Prop := col b ≤ col a

instance {α : Type} (col : α → ℚ) : DecidableRel (colGe col) := fun a b =>
  inferInstanceAs (Decidable (col b ≤ col a))

instance {α : Type} (col : α → ℚ) : IsTotal α (colGe col) :=
  ⟨fun a b => le_total (col b) (col a)⟩

instance {α : Type} (col : α → ℚ) : IsTrans α (colGe col) :=
  ⟨fun _ _ _ h1 h2 => le_trans h2 h1⟩

/-- `DataFrame.nlargest(n, col)` with `keep="first"`. -/
def nlargest {α : Type} (n : Nat) (col : α → ℚ) (l : List α) : List α :=
  (List.insertionSort (colGe col) l).take n

/-- The top-10 bar chart input of `main` (app.py line 125). -/
def top10_products (t : List Row) : List ProductRow :=
  nlargest 10 ProductRow.total_price (create_product_metrics t)

lemma filter_orderedInsert {α : Type} (col : α → ℚ) (v : ℚ) (a : α) :
    ∀ s : List α,
      (List.orderedInsert (colGe col) a s).filter (fun x => col x = v) =
        if col a = v then a :: s.filter (fun x => col x = v)
        else s.filter (fun x => col x = v) := by
  intro s
  induction s with
  | nil =>
    by_cases h : col a = v <;> simp [List.orderedInsert, List.filter, h]
  | cons x s ih =>
    by_cases hle : colGe col a x
    · rw [List.orderedInsert_of_le _ _ hle]
      by_cases h : col a = v <;> simp [List.filter_cons, h]
    · have hx : ¬ col x ≤ col a := hle
      simp only [List.orderedInsert, if_neg hle]
      by_cases hpx : col x = v
      · by_cases hpa : col a = v
        · exact absurd (hpa.trans hpx.symm ▸ le_refl (col a)) hx
        · simp [List.filter_cons, hpx, ih, hpa]
      · simp only [List.filter_cons, decide_eq_true_eq]
        by_cases hpa : col a = v <;> simp [hpx, ih, hpa]

lemma filter_insertionSort {α : Type} (col : α → ℚ) (v : ℚ) :
    ∀ l : List α,
      (List.insertionSort (colGe col) l).filter (fun x => col x = v) =
        l.filter (fun x => col x = v) := by
  intro l
  induction l with
  | nil => rfl
  | cons a l ih =>
    simp only [List.insertionSort, filter_orderedInsert, List.filter_cons, ih]
    by_cases h : col a = v <;> simp [h]

/-- Ties in `nlargest` keep their input order, and the kept ones are
the first: within each revenue value the selected rows, in order, are
an initial segment of the input rows of that value. -/
lemma nlargest_stable {α : Type} (n : Nat) (col : α → ℚ) (l : List α) (v : ℚ) :
    ∃ rest, (nlargest n col l).filter (fun x => col x = v) ++ rest =
      l.filter (fun x => col x = v) := by
  refine ⟨((List.insertionSort (colGe col) l).drop n).filter (fun x => col x = v), ?_⟩
  rw [nlargest, ← List.filter_append, List.take_append_drop,
    filter_insertionSort]

/-- **C4 (amended)**  The top-10 selection returns exactly
`min 10 (number of distinct (category, type) groups)` rows, sorted
descending (non-strictly) by summed revenue; rows of equal revenue
keep the relative order they have in the grouped product table — which
is sorted ascending by `(product_category, product_type)` key, not the
order the groups are first encountered in the filtered table — and for
each revenue value the selected rows are an initial segment of that
table's rows of that value. -/
theorem top10_products_spec (t : List Row) :
    (top10_products t).length = min 10 ((t.map prodKey).dedup.length) ∧
    (top10_products t).Pairwise
      (fun a b => b.total_price ≤ a.total_price) ∧
    ∀ v : ℚ, ∃ rest,
      (top10_products t).filter (fun p => p.total_price = v) ++ rest =
        (create_product_metrics t).filter (fun p => p.total_price = v) := by
  refine ⟨?_, ?_, fun v => nlargest_stable 10 _ _ v⟩
  · rw [top10_products, nlargest, List.length_take,
      (List.perm_insertionSort _ _).length_eq, create_product_metrics,
      List.length_map, groupKeys,
      (List.perm_insertionSort _ _).length_eq]
  · have h := List.sorted_insertionSort (colGe ProductRow.total_price)
      (create_product_metrics t)
    exact (h.sublist (List.take_sublist 10 _)).imp fun hab => hab

/-! #### The claim's literal tie-break (encounter order) is false -/

/-- The distinct values of a list in first-encounter order. -/
def encounterDedup {κ : Type} [DecidableEq κ] : List κ → List κ
  | [] => []
  | k :: ks => k :: (encounterDedup ks).filter (fun j => j ≠ k)

/-- `create_product_metrics` as the claim reads it: one row per
`(product_category, product_type)` group, in the order the groups are
first encountered in the filtered table. -/
def create_product_metrics_encounter (t : List Row) : List ProductRow :=
  (encounterDedup (t.map prodKey)).map fun k =>
    { product_category := k.1
      product_type := k.2
      total_price := sumPrices (groupRows prodKey k t)
      transaction_id := (groupRows prodKey k t).length
      transaction_qty := sumQty (groupRows prodKey k t) }

/-- The top-10 selection with ties broken by the groups' encounter
order, as the claim states it. -/
def top10_products_encounter (t : List Row) : List ProductRow :=
  nlargest 10 ProductRow.total_price (create_product_metrics_encounter t)

/-- Two-row table whose two product groups tie at revenue 5 and are
encountered in the order (Tea, Chai), (Coffee, Latte) — the reverse of
their sorted key order. -/
def ceTable : List Row :=
  [ { transaction_id := 1, transaction_date := 86400 * 19358,
      transaction_time := "0930", transaction_qty := 1, unit_price := 5,
      store_location := "A", product_category := "Tea",
      product_type := "Chai", total_price := 5 },
    { transaction_id := 2, transaction_date := 86400 * 19358,
      transaction_time := "1030", transaction_qty := 1, unit_price := 5,
      store_location := "B", product_category := "Coffee",
      product_type := "Latte", total_price := 5 } ]

/-- The (Tea, Chai) group row of `ceTable`. -/
def ceChai : ProductRow :=
  { product_category := "Tea", product_type := "Chai", total_price := 5,
    transaction_id := 1, transaction_qty := 1 }

/-- The (Coffee, Latte) group row of `ceTable`. -/
def ceLatte : ProductRow :=
  { product_category := "Coffee", product_type := "Latte", total_price := 5,
    transaction_id := 1, transaction_qty := 1 }

/-- **C4 (counterexample)**  On `ceTable` the code breaks the revenue
tie by sorted group key, putting (Coffee, Latte) first, while the
claim's encounter-order tie-break would put (Tea, Chai) first: the
claim's stated output is not the code's output. -/
theorem top10_products_counterexample :
    top10_products ceTable = [ceLatte, ceChai] ∧
    top10_products_encounter ceTable = [ceChai, ceLatte] ∧
    top10_products ceTable ≠ top10_products_encounter ceTable := by
  have h1 : top10_products ceTable = [ceLatte, ceChai] := by
    simp [top10_products, nlargest, create_product_metrics, groupKeys,
      groupRows, prodKey, ceTable, List.dedup, List.pwFilter,
      List.insertionSort, List.orderedInsert, prodLe, colGe,
      sumPrices, sumQty, ceLatte, ceChai, meanPrice,
      String.lt_iff_toList_lt, String.le_iff_toList_le]
  have h2 : top10_products_encounter ceTable = [ceChai, ceLatte] := by
    simp [top10_products_encounter, nlargest, create_product_metrics_encounter,
      encounterDedup, groupRows, prodKey, ceTable,
      List.insertionSort, List.orderedInsert, colGe,
      sumPrices, sumQty, ceLatte, ceChai]
  refine ⟨h1, h2, ?_⟩
  rw [h1, h2]
  intro hc
  have : ceLatte = ceChai := by
    injection hc with h _
  simp [ceLatte, ceChai] at this

/-! ### The empty-selection short-circuit (C9) -/

/-- What one interaction of `main` renders after the filter: either
the bare "No data available for the selected filters." warning, or the
full dashboard of aggregate views over the (non-empty) filtered
table.  The `noData` branch carries no aggregate at all. -/
inductive RenderResult where
  | noData : RenderResult
  | dashboard : KPI → List DailyRow → List ProductRow → List ProductRow →
      List StoreRow → List (String × ℚ) → List (String × Option ℚ) →
      List Row → RenderResult
deriving DecidableEq

/-- The post-filter body of `main` (app.py lines 76-239): if the
filtered table is empty, warn and return before any aggregation (the
`kpiSummary` call is typed so that it can only be made with the
non-emptiness proof the branch provides); otherwise compute every
aggregate view. -/
def renderMain (filtered : List Row) : RenderResult :=
  if h : filtered = [] then RenderResult.noData
  else
    RenderResult.dashboard (kpiSummary filtered h)
      (create_daily_metrics filtered) (create_product_metrics filtered)
      (top10_products filtered) (store_metrics filtered)
      (hourly_data filtered) (daily_patterns filtered) filtered

/-- **C9**  The interaction renders the no-data notice exactly when
the filtered table is empty — in that case no aggregate view is
produced, and in particular the KPI summary (whose argument carries a
non-emptiness proof) is never evaluated on an empty table. -/
theorem empty_filter_short_circuit (t : List Row) :
    renderMain t = RenderResult.noData ↔ t = [] := by
  unfold renderMain
  by_cases h : t = [] <;> simp [h]

end CoffeeDashboard
